import Mathlib

/-!
Verification of the README-embeddings pipeline
(`pipelines/opencloudhub-readmes-embeddings/scripts/process.py`, with the
earlier revision `process copy.py` where a claim refers to it).

Modelling conventions:
* Python strings are modelled as `List Char` (`Str`); literals are written
  as `"...".data`.
* The langchain splitters (`MarkdownHeaderTextSplitter`,
  `RecursiveCharacterTextSplitter`) are external library code, not part of
  this repository; they are modelled from the specification (see the doc
  comments marked `Modelled from the spec:`), and `Chunker.callWith` keeps
  them as parameters so that splitter-independent facts are proved for
  every splitter.
* The PostgreSQL table is modelled as a list of rows with `id` as primary
  key; a transaction is a pending list that becomes visible only at commit,
  and any failing statement aborts the whole transaction (psycopg rolls the
  connection back when the `with` block exits on an exception).
* `uuid.uuid4()` results are modelled as parameters (`docId`, a generator
  `gen` for chunk ids): the claims under proof never depend on their values.
-/

/-- A Python string, modelled as its list of code points. -/
abbrev Str := List Char

/-- Python `s.replace(pat, repl)`, replacing every non-overlapping
occurrence of `pat` scanning left to right: the recursion is bounded by a
fuel argument so that it stays structural; the fuel is initialized to the
input length, which the scan never exceeds, so the fuel-exhausted branch
is unreachable. -/
def pyReplaceAux (pat repl : Str) : Nat → Str → Str
  | _, [] => []
  | 0, l => l
  | fuel + 1, c :: rest =>
    if pat ≠ [] ∧ pat.isPrefixOf (c :: rest) then
      repl ++ pyReplaceAux pat repl fuel ((c :: rest).drop pat.length)
    else
      c :: pyReplaceAux pat repl fuel rest

/-- Python `s.replace(pat, repl)`.  (`Chunker.__call__` uses
`path.stem.replace("_README", "")`.) -/
def pyReplace (pat repl : Str) (l : Str) : Str :=
  pyReplaceAux pat repl l.length l

/-- Python `str.strip()` whitespace test (ASCII whitespace suffices for the
inputs considered here). -/
def isPySpace (c : Char) : Bool :=
  c = ' ' ∨ c = '\t' ∨ c = '\n' ∨ c = '\r' ∨ c = '\x0b' ∨ c = '\x0c'

/-- Python `str.strip()`: remove leading and trailing whitespace. -/
def pyStrip (s : Str) : Str :=
  ((s.dropWhile isPySpace).reverse.dropWhile isPySpace).reverse

/-- One step of the regex `<a[^>]*></a>` at the head of the input: the
literal `<a`, then a maximal run of characters other than `>`, then the
literal `></a>`.  Returns the length of the match, if any. -/
def anchorInnerLen (s : Str) : Nat :=
  ((s.drop 2).takeWhile (fun c => c ≠ '>')).length

def anchorMatchLen (s : Str) : Option Nat :=
  if s.take 2 = "<a".data then
    if "></a>".data.isPrefixOf ((s.drop 2).drop (anchorInnerLen s)) then
      some (2 + anchorInnerLen s + 5)
    else none
  else none

/-- The substitution pass of Python `re.sub(r"<a[^>]*></a>", "", h)`,
deleting every leftmost non-overlapping match; fuel-bounded structural
recursion as for `pyReplaceAux` (a match always consumes at least one
character, so fuel equal to the input length never runs out). -/
def removeAnchorsAux : Nat → Str → Str
  | _, [] => []
  | 0, l => l
  | fuel + 1, c :: rest =>
    match anchorMatchLen (c :: rest) with
    | some n => removeAnchorsAux fuel ((c :: rest).drop n)
    | none => c :: removeAnchorsAux fuel rest

def removeAnchors (l : Str) : Str :=
  removeAnchorsAux l.length l

/-- Model of `Chunker._clean_header`: `re.sub(r"<a[^>]*></a>", "", h).strip()`. -/
def cleanHeader (h : Str) : Str :=
  pyStrip (removeAnchors h)

/-- Model of `pathlib.Path(p).name` for a POSIX path with a non-empty final
component: the text after the last slash. -/
def pathName (p : Str) : Str :=
  ((p.splitOn '/').getLastD [])

/-- Index of the last occurrence of `c` in `l`, if any. -/
def lastIndexOf (c : Char) (l : Str) : Option Nat :=
  match l.reverse.findIdx? (fun d => d = c) with
  | none => none
  | some j => some (l.length - 1 - j)

/-- Model of `pathlib.Path(p).stem`: the final component without its last suffix;
the suffix runs from the last dot provided that dot is neither the first
nor the last character of the name. -/
def pathStem (p : Str) : Str :=
  let n := pathName p
  match lastIndexOf '.' n with
  | none => n
  | some i => if 0 < i ∧ i < n.length - 1 then n.take i else n

/-- Split a text into its lines at newline characters (Python
`text.split("\n")`): never empty, and joining with newlines restores the
text. -/
def splitLinesL : Str → List Str
  | [] => [[]]
  | c :: cs =>
    if c = '\n' then [] :: splitLinesL cs
    else
      match splitLinesL cs with
      | [] => [[c]]
      | l :: ls => (c :: l) :: ls

/-- Join lines with newline characters. -/
def joinLinesL : List Str → Str
  | [] => []
  | [l] => l
  | l :: ls => l ++ '\n' :: joinLinesL ls

/-- Heading detection of the header splitter: a line opening a level 1 to 3
markdown heading, returning the level and the heading text after the
marker, trimmed.  Levels are tested longest marker first. -/
def headerOf (l : Str) : Option (Nat × Str) :=
  if "### ".data.isPrefixOf l then some (3, pyStrip (l.drop 4))
  else if "## ".data.isPrefixOf l then some (2, pyStrip (l.drop 3))
  else if "# ".data.isPrefixOf l then some (1, pyStrip (l.drop 2))
  else none

/-- One section produced by the header splitter: the section body text and
the enclosing heading hierarchy (absent keys modelled as `none`).  Mirrors
a langchain `Document` with `page_content` and a metadata dict holding the
keys `h1`, `h2`, `h3`. -/
structure Split where
  pageContent : Str
  h1 : Option Str
  h2 : Option Str
  h3 : Option Str
deriving DecidableEq, Repr

/-- Emit the accumulated section, unless its lines are all empty (an empty
document yields no section). -/
def flushSection (h1 h2 h3 : Option Str) (acc : List Str) : List Split :=
  if acc.any (fun l => l ≠ []) then [⟨joinLinesL acc, h1, h2, h3⟩] else []

/-- Walk the lines, breaking at heading lines; a heading line starts a new
section, keeps itself as the first body line, updates its own level in the
hierarchy and clears the deeper levels. -/
def hsGo (h1 h2 h3 : Option Str) (acc : List Str) : List Str → List Split
  | [] => flushSection h1 h2 h3 acc
  | l :: ls =>
    match headerOf l with
    | some (1, t) => flushSection h1 h2 h3 acc ++ hsGo (some t) none none [l] ls
    | some (2, t) => flushSection h1 h2 h3 acc ++ hsGo h1 (some t) none [l] ls
    | some (_, t) => flushSection h1 h2 h3 acc ++ hsGo h1 h2 (some t) [l] ls
    | none => hsGo h1 h2 h3 (acc ++ [l]) ls

/-- Modelled from the spec: the markdown header splitter
(`langchain_text_splitters.MarkdownHeaderTextSplitter` with
`strip_headers=False`, external library code not in this repository).
The spec: split the document into sections delimited by markdown headings
of levels 1 to 3; each section retains its own heading text as metadata and
keeps the heading line as part of its body text; the enclosing heading
hierarchy is propagated; empty document text yields zero sections. -/
def markdownHeaderSplit (text : Str) : List Split :=
  hsGo none none none [] (splitLinesL text)

/-- Modelled from the spec: the size splitter
(`langchain_text_splitters.RecursiveCharacterTextSplitter`, external
library code not in this repository).  The spec: slide a window of
`chunkSize` characters, advancing by `chunkSize - overlap` characters each
step; the final window is truncated to the remaining text, not padded. -/
def slidingWindowAux (chunkSize overlap : Nat) : Nat → Str → List Str
  | 0, t => [t]
  | fuel + 1, t =>
    if t.length ≤ chunkSize ∨ chunkSize ≤ overlap then [t]
    else
      t.take chunkSize ::
        slidingWindowAux chunkSize overlap fuel (t.drop (chunkSize - overlap))

def slidingWindowSplit (chunkSize overlap : Nat) (t : Str) : List Str :=
  slidingWindowAux chunkSize overlap t.length t

/-- One record produced by `Chunker.__call__` (the dict literal at its
core; `chunk_id` values come from the generator `gen`, modelling
`uuid.uuid4()`). -/
structure ChunkRec where
  text : Str
  source_repo : Str
  source_file : Str
  chunk_index : Nat
  doc_id : Str
  chunk_id : Str
  section_h1 : Str
  section_h2 : Str
  section_h3 : Str
deriving DecidableEq, Repr

/-- An input row of the chunking stage: `row["path"]` and `row["text"]`. -/
structure DocRow where
  path : Str
  text : Str
deriving DecidableEq, Repr

/-- The dict literal appended by `Chunker.__call__` for one sub text of one
section: note that only `section_h1` passes through `_clean_header`, while
`section_h2` and `section_h3` are stored as retrieved. -/
def Chunker.mkChunk (repoName fileName docId : Str) (gen : Nat → Str)
    (s : Split) (i : Nat) (t : Str) : ChunkRec :=
  { text := t
    source_repo := repoName
    source_file := fileName
    chunk_index := i
    doc_id := docId
    chunk_id := gen i
    section_h1 := cleanHeader (s.h1.getD [])
    section_h2 := s.h2.getD []
    section_h3 := s.h3.getD [] }

/-- The inner loop of `Chunker.__call__`: append one record per sub text,
incrementing `chunk_index` after each. -/
def Chunker.emitSubs (mk : Nat → Str → ChunkRec) : List Str → Nat → List ChunkRec
  | [], _ => []
  | t :: ts, i => mk i t :: Chunker.emitSubs mk ts (i + 1)

/-- The sub texts of one section: split further by size only when the
section exceeds `chunk_size` (`if len(section_text) >
self.size_splitter._chunk_size`). -/
def Chunker.subTexts (sizeSplit : Str → List Str) (chunkSize : Nat)
    (sectionText : Str) : List Str :=
  if chunkSize < sectionText.length then sizeSplit sectionText else [sectionText]

/-- The outer loop of `Chunker.__call__` over the header splits, threading
the running `chunk_index`. -/
def Chunker.loop (sizeSplit : Str → List Str) (chunkSize : Nat)
    (mk : Split → Nat → Str → ChunkRec) : List Split → Nat → List ChunkRec
  | [], _ => []
  | s :: rest, i =>
    Chunker.emitSubs (mk s) (Chunker.subTexts sizeSplit chunkSize s.pageContent) i ++
      Chunker.loop sizeSplit chunkSize mk rest
        (i + (Chunker.subTexts sizeSplit chunkSize s.pageContent).length)

/-- Model of `Chunker.__call__`, parameterized over the two text splitters (which
are external langchain components): derives `source_repo` from
`path.stem.replace("_README", "")` and `source_file` from `path.name`,
header-splits the text, size-splits oversized sections, and emits the
records with a running `chunk_index` starting at 0. -/
def Chunker.callWith (headerSplit : Str → List Split) (sizeSplit : Str → List Str)
    (chunkSize : Nat) (docId : Str) (gen : Nat → Str) (row : DocRow) : List ChunkRec :=
  Chunker.loop sizeSplit chunkSize
    (Chunker.mkChunk (pyReplace "_README".data [] (pathStem row.path))
      (pathName row.path) docId gen)
    (headerSplit row.text) 0

/-- Model of `Chunker.__call__` with the two splitters instantiated by their
spec-modelled stand-ins, as built in `Chunker.__init__` from `chunk_size`
and `chunk_overlap`. -/
def Chunker.call (chunkSize chunkOverlap : Nat) (docId : Str) (gen : Nat → Str)
    (row : DocRow) : List ChunkRec :=
  Chunker.callWith markdownHeaderSplit (slidingWindowSplit chunkSize chunkOverlap)
    chunkSize docId gen row

/-- The JSONB `metadata` object built in `PGVectorWriter.__call__` for one
record. -/
structure RecordMetadata where
  source_repo : Str
  source_file : Str
  chunk_index : Int
  doc_id : Str
  dvc_data_version : Str
  embedding_model : Str
  docker_image : Option Str
  argo_workflow_uid : Option Str
  section_h1 : Str
  section_h2 : Str
  section_h3 : Str
deriving DecidableEq, Repr

/-- A persisted row of the destination table (`created_at`, a database-side
timestamp default, is not modelled).  Embedding components are modelled as
integers: their values never matter to the claims. -/
structure IngestedRow where
  id : Str
  content : Str
  embedding : List Int
  metadata : RecordMetadata
deriving DecidableEq, Repr

/-- The destination table: visible rows, plus the two indexes created by
`initialize_table`.  The `id` column is the primary key. -/
structure TableState where
  rows : List IngestedRow
  hasEmbeddingIndex : Bool
  hasIdIndex : Bool
deriving DecidableEq, Repr

/-- Model of `initialize_table` from `process.py`: `DROP TABLE IF EXISTS ... CASCADE`,
then `CREATE TABLE ...`, then the HNSW embedding index and the id index.
The database is `none` when the table does not exist.  The function takes
no policy argument: it always drops and recreates. -/
def initialize_table : Option TableState → Option TableState :=
  fun _ => some ⟨[], true, true⟩

/-- Model of `initialize_table` from the earlier revision `process copy.py`:
`CREATE TABLE IF NOT EXISTS ...` and `CREATE INDEX IF NOT EXISTS ...`, so
an existing table and its rows are preserved.  (That revision uses a flat
column schema; only row preservation is at issue here, so the same row
type is reused.) -/
def initialize_table_copy : Option TableState → Option TableState
  | some s => some { s with hasEmbeddingIndex := true }
  | none => some ⟨[], true, false⟩

/-- One embedded chunk of a writer batch.  The source batch is a dict of
parallel column arrays indexed by a common `i`; it is modelled row-wise,
one structure per index `i`. -/
structure EmbeddedChunk where
  chunk_id : Str
  text : Str
  embedding : List Int
  source_repo : Str
  source_file : Str
  chunk_index : Int
  doc_id : Str
  section_h1 : Str
  section_h2 : Str
  section_h3 : Str
deriving DecidableEq, Repr

/-- Database errors surfaced by the modelled statements. -/
inductive PGError where
  | uniqueViolation
deriving DecidableEq, Repr

/-- Model of the `PGVectorWriter` configuration state (`__init__`), plus the lazily
created connection handle `_conn` (handles are modelled as numbers). -/
structure PGVectorWriter where
  connection_string : Str
  table_name : Str
  data_version : Str
  embedding_model : Str
  docker_image : Option Str
  argo_workflow_uid : Option Str
  conn : Option Nat
deriving DecidableEq, Repr

/-- The serialized snapshot produced by `PGVectorWriter.__getstate__`: the
instance dict with `_conn` popped, leaving exactly the six configuration
fields. -/
structure WriterState where
  connection_string : Str
  table_name : Str
  data_version : Str
  embedding_model : Str
  docker_image : Option Str
  argo_workflow_uid : Option Str
deriving DecidableEq, Repr

def PGVectorWriter.getstate (w : PGVectorWriter) : WriterState :=
  ⟨w.connection_string, w.table_name, w.data_version, w.embedding_model,
    w.docker_image, w.argo_workflow_uid⟩

/-- Model of `PGVectorWriter.__setstate__`: restore the configuration fields and set
`_conn = None`. -/
def PGVectorWriter.setstate (s : WriterState) : PGVectorWriter :=
  ⟨s.connection_string, s.table_name, s.data_version, s.embedding_model,
    s.docker_image, s.argo_workflow_uid, none⟩

/-- Model of `PGVectorWriter._get_connection`: if a connection is held and still
alive (the `SELECT 1` probe), reuse it; otherwise (dead or absent) connect
anew.  `alive` models the probe outcome and `fresh` the handle a new
`psycopg.connect` returns. -/
def PGVectorWriter.getConnection (alive : Nat → Bool) (w : PGVectorWriter)
    (fresh : Nat) : PGVectorWriter × Nat :=
  match w.conn with
  | some c => if alive c then (w, c) else ({ w with conn := some fresh }, fresh)
  | none => ({ w with conn := some fresh }, fresh)

/-- The `INSERT INTO ... (id, content, embedding, metadata) VALUES ...`
issued per record by `PGVectorWriter.__call__`, evaluated against the
visible rows and the rows pending in the open transaction: a duplicate
`id` violates the primary key, otherwise the row is appended to the
transaction. -/
def insertRow (visible pending : List IngestedRow) (r : IngestedRow) :
    Except PGError (List IngestedRow) :=
  if (visible ++ pending).any (fun q => q.id = r.id) then
    .error .uniqueViolation
  else
    .ok (pending ++ [r])

/-- The Ingested Record built from one chunk by `PGVectorWriter.__call__`
(`record_id = batch["chunk_id"][i]`, the content, the embedding, and the
JSONB metadata literal). -/
def PGVectorWriter.rowOf (w : PGVectorWriter) (c : EmbeddedChunk) : IngestedRow :=
  { id := c.chunk_id
    content := c.text
    embedding := c.embedding
    metadata :=
      { source_repo := c.source_repo
        source_file := c.source_file
        chunk_index := c.chunk_index
        doc_id := c.doc_id
        dvc_data_version := w.data_version
        embedding_model := w.embedding_model
        docker_image := w.docker_image
        argo_workflow_uid := w.argo_workflow_uid
        section_h1 := c.section_h1
        section_h2 := c.section_h2
        section_h3 := c.section_h3 } }

/-- The insert loop of `PGVectorWriter.__call__`: issue the inserts one by
one inside the open transaction; the first failure aborts the loop. -/
def insertLoop (w : PGVectorWriter) (visible : List IngestedRow) :
    List EmbeddedChunk → List IngestedRow → Except PGError (List IngestedRow)
  | [], pending => .ok pending
  | c :: cs, pending =>
    match insertRow visible pending (w.rowOf c) with
    | .error e => .error e
    | .ok pending2 => insertLoop w visible cs pending2

/-- The outcome of one `PGVectorWriter.__call__`: the table afterwards, the
error that escaped the call (if any), and how many commits made rows
visible. -/
structure WriteResult where
  db : TableState
  error : Option PGError
  commits : Nat
deriving DecidableEq, Repr

/-- Model of `PGVectorWriter.__call__`: open a fresh connection, issue every insert
of the batch inside the single open transaction, then `conn.commit()` once.
On a statement failure the exception leaves the `with` blocks, which roll
the transaction back: no row of the batch becomes visible and the error
escapes. -/
def PGVectorWriter.call (w : PGVectorWriter) (batch : List EmbeddedChunk)
    (db : TableState) : WriteResult :=
  match insertLoop w db.rows batch [] with
  | .ok pending => ⟨{ db with rows := db.rows ++ pending }, none, 1⟩
  | .error e => ⟨db, some e, 0⟩

/-- Encoding errors of the embedding model (`self.model.encode` raising). -/
inductive EncodeError where
  | encodeFailure
deriving DecidableEq, Repr

/-- The input batch of `Embedder.__call__` (the relevant parallel column
arrays of the dict). -/
structure EmbedderInBatch where
  text : List Str
  source_repo : List Str
  source_file : List Str
  chunk_index : List Int
  doc_id : List Str
  chunk_id : List Str
  section_h1 : List Str
  section_h2 : List Str
  section_h3 : List Str
deriving DecidableEq, Repr

/-- The output batch of `Embedder.__call__`: the embeddings plus every
input column passed through. -/
structure EmbedderOutBatch where
  embeddings : List (List Int)
  text : List Str
  source_repo : List Str
  source_file : List Str
  chunk_index : List Int
  doc_id : List Str
  chunk_id : List Str
  section_h1 : List Str
  section_h2 : List Str
  section_h3 : List Str
deriving DecidableEq, Repr

/-- Model of `Embedder.__call__`: one call to `self.model.encode` on the whole batch
text column (modelled by the `encode` parameter, which either returns the
vectors or raises), then the output dict.  There is no exception handler
in the source: an encode failure propagates to the caller. -/
def Embedder.call (encode : List Str → Except EncodeError (List (List Int)))
    (batch : EmbedderInBatch) : Except EncodeError EmbedderOutBatch :=
  match encode batch.text with
  | .error e => .error e
  | .ok embs =>
    .ok ⟨embs, batch.text, batch.source_repo, batch.source_file,
      batch.chunk_index, batch.doc_id, batch.chunk_id,
      batch.section_h1, batch.section_h2, batch.section_h3⟩

/-- The embedding stage of `main` (`ds.map_batches(Embedder, ...)`): every
batch passes through `Embedder.__call__`; an uncaught exception in any
batch fails the dataset execution, so the stage is the monadic map that
stops at the first error. -/
def embedStage (encode : List Str → Except EncodeError (List (List Int)))
    (batches : List EmbedderInBatch) : Except EncodeError (List EmbedderOutBatch) :=
  batches.mapM (Embedder.call encode)

/-- The derivation of `source_repo` as the claim under review words it: the
filename stem with a trailing `_README` SUFFIX removed (a spec-side
definition, for comparison with the source derivation, which removes every
occurrence). -/
def stemWithSuffixREADMERemoved (p : Str) : Str :=
  if "_README".data.isSuffixOf (pathStem p) then
    (pathStem p).take ((pathStem p).length - "_README".data.length)
  else pathStem p

/-- Concrete metadata, for counterexample rows. -/
def metadata0 : RecordMetadata :=
  ⟨"r".data, "f".data, 0, "d".data, "v1".data, "m".data, none, none, [], [], []⟩

/-- A row already present in the destination table before a run. -/
def preexistingRow : IngestedRow :=
  ⟨"r0".data, "old content".data, [1, 2], metadata0⟩

/-- A concrete writer configuration. -/
def writer0 : PGVectorWriter :=
  ⟨"postgresql".data, "tbl".data, "v1".data, "m".data, none, none, none⟩

/-- A concrete embedded chunk with `chunk_id` c1. -/
def chunk0 : EmbeddedChunk :=
  ⟨"c1".data, "hello".data, [1, 2], "r".data, "f".data, 0, "d".data, [], [], []⟩

/-- A second concrete embedded chunk, `chunk_id` c2. -/
def chunk1 : EmbeddedChunk :=
  ⟨"c2".data, "world".data, [3, 4], "r".data, "f".data, 1, "d".data, [], [], []⟩

/-- The freshly initialized destination table. -/
def emptyTable : TableState := ⟨[], true, true⟩

/-- A concrete encode function that fails whenever the batch contains the
text bad, and otherwise embeds every text as `[0]`. -/
def encFail : List Str → Except EncodeError (List (List Int)) :=
  fun texts =>
    if texts.any (fun t => t = "bad".data) then .error .encodeFailure
    else .ok (texts.map (fun _ => [0]))

/-- A concrete embedder batch holding one chunk that encodes fine and one
whose encoding fails. -/
def badBatch : EmbedderInBatch :=
  ⟨["ok".data, "bad".data], ["r".data, "r".data], ["f".data, "f".data],
    [0, 1], ["d".data, "d".data], ["c1".data, "c2".data], [[], []], [[], []], [[], []]⟩

/-- A concrete document whose level-2 heading carries an embedded anchor
tag. -/
def row5 : DocRow :=
  ⟨"acme_README.md".data, "# Title\n## Setup <a id=\"x\"></a>\nBody here".data⟩

/-- A concrete document whose filename stem contains `_README` twice. -/
def row10 : DocRow :=
  ⟨"a_README_README.md".data, "hello".data⟩

theorem splitLinesL_ne_nil (t : Str) : splitLinesL t ≠ [] := by
  cases t with
  | nil => simp [splitLinesL]
  | cons c cs =>
    simp only [splitLinesL]
    split
    · simp
    · cases splitLinesL cs <;> simp

theorem joinLinesL_splitLinesL (t : Str) : joinLinesL (splitLinesL t) = t := by
  induction t with
  | nil => rfl
  | cons c cs ih =>
    simp only [splitLinesL]
    split
    · subst_vars
      rcases h : splitLinesL cs with _ | ⟨l, ls⟩
      · exact absurd h (splitLinesL_ne_nil cs)
      · rw [h] at ih
        simp [joinLinesL, ih]
    · rcases h : splitLinesL cs with _ | ⟨l, ls⟩
      · exact absurd h (splitLinesL_ne_nil cs)
      · rw [h] at ih
        cases ls with
        | nil => simp_all [joinLinesL]
        | cons l2 ls2 => simp_all [joinLinesL]

theorem hsGo_no_heading (h1 h2 h3 : Option Str) (acc ls : List Str)
    (h : ∀ l ∈ ls, headerOf l = none) :
    hsGo h1 h2 h3 acc ls = flushSection h1 h2 h3 (acc ++ ls) := by
  induction ls generalizing acc with
  | nil => simp [hsGo]
  | cons l ls ih =>
    have hl : headerOf l = none := h l (by simp)
    simp only [hsGo, hl]
    rw [ih (acc ++ [l]) (fun x hx => h x (by simp [hx]))]
    simp

theorem markdownHeaderSplit_no_heading (text : Str)
    (hnh : ∀ l ∈ splitLinesL text, headerOf l = none)
    (hnb : ∃ l ∈ splitLinesL text, l ≠ []) :
    markdownHeaderSplit text = [⟨text, none, none, none⟩] := by
  unfold markdownHeaderSplit
  rw [hsGo_no_heading none none none [] (splitLinesL text) hnh]
  simp only [List.nil_append, flushSection]
  rw [if_pos, joinLinesL_splitLinesL]
  rcases hnb with ⟨l, hl, hne⟩
  simp only [List.any_eq_true, decide_eq_true_eq]
  exact ⟨l, hl, hne⟩

theorem slidingWindowAux_length (S O : Nat) (hO : O < S) (fuel : Nat) :
    ∀ t : Str, t.length ≤ fuel →
      (slidingWindowAux S O fuel t).length =
        if t.length ≤ S then 1 else (t.length - O + (S - O) - 1) / (S - O) := by
  induction fuel with
  | zero =>
    intro t ht
    have h0 : t.length = 0 := by omega
    rw [slidingWindowAux, if_pos (by omega)]
    rfl
  | succ fuel ih =>
    intro t ht
    rw [slidingWindowAux]
    by_cases hle : t.length ≤ S
    · simp [hle]
    · have hD : 0 < S - O := by omega
      have hrec := ih (t.drop (S - O)) (by simp; omega)
      have hdl : (t.drop (S - O)).length = t.length - (S - O) := by simp
      rw [hdl] at hrec
      simp only [hle, false_or, if_neg (by omega : ¬ S ≤ O), if_neg hle,
        List.length_cons, hrec]
      by_cases h2 : t.length - (S - O) ≤ S
      · rw [if_pos h2]
        have hdiv : (t.length - O + (S - O) - 1) / (S - O) = 2 :=
          Nat.div_eq_of_lt_le (by omega) (by omega)
        rw [hdiv]
        simp
      · rw [if_neg h2]
        have he : t.length - O + (S - O) - 1 =
            (t.length - (S - O) - O + (S - O) - 1) + (S - O) := by
          omega
        rw [he, Nat.add_div_right _ hD]
        simp

theorem slidingWindowSplit_length (S O : Nat) (hO : O < S) (t : Str) :
    (slidingWindowSplit S O t).length =
      if t.length ≤ S then 1 else (t.length - O + (S - O) - 1) / (S - O) :=
  slidingWindowAux_length S O hO t.length t (Nat.le_refl _)

theorem slidingWindowAux_mem_length (S O : Nat) (hO : O < S) (fuel : Nat) :
    ∀ t c : Str, t.length ≤ fuel → c ∈ slidingWindowAux S O fuel t →
      c.length ≤ S := by
  induction fuel with
  | zero =>
    intro t c ht hc
    rw [slidingWindowAux] at hc
    simp at hc
    subst hc
    omega
  | succ fuel ih =>
    intro t c ht hc
    rw [slidingWindowAux] at hc
    by_cases hle : t.length ≤ S ∨ S ≤ O
    · rw [if_pos hle] at hc
      simp at hc
      subst hc
      rcases hle with h | h
      · exact h
      · omega
    · rw [if_neg hle] at hc
      rcases List.mem_cons.mp hc with h | h
      · subst h
        simp
      · exact ih (t.drop (S - O)) c (by simp; omega) h

theorem slidingWindowSplit_mem_length (S O : Nat) (hO : O < S) (t : Str)
    (c : Str) (hc : c ∈ slidingWindowSplit S O t) : c.length ≤ S :=
  slidingWindowAux_mem_length S O hO t.length t c (Nat.le_refl _) hc

theorem emitSubs_length (mk : Nat → Str → ChunkRec) (ts : List Str) (i : Nat) :
    (Chunker.emitSubs mk ts i).length = ts.length := by
  induction ts generalizing i with
  | nil => rfl
  | cons t ts ih => simp [Chunker.emitSubs, ih]

theorem emitSubs_map_index (mk : Nat → Str → ChunkRec)
    (h : ∀ i t, (mk i t).chunk_index = i) (ts : List Str) (i : Nat) :
    (Chunker.emitSubs mk ts i).map ChunkRec.chunk_index = List.range' i ts.length := by
  induction ts generalizing i with
  | nil => rfl
  | cons t ts ih =>
    simp [Chunker.emitSubs, List.range'_succ, h, ih]

theorem emitSubs_mem (mk : Nat → Str → ChunkRec) (ts : List Str) (i : Nat)
    (c : ChunkRec) (hc : c ∈ Chunker.emitSubs mk ts i) :
    ∃ j t, t ∈ ts ∧ c = mk j t := by
  induction ts generalizing i with
  | nil => simp [Chunker.emitSubs] at hc
  | cons t ts ih =>
    rcases List.mem_cons.mp hc with h | h
    · exact ⟨i, t, by simp, h⟩
    · rcases ih (i + 1) h with ⟨j, u, hu, he⟩
      exact ⟨j, u, by simp [hu], he⟩

theorem loop_length (sizeSplit : Str → List Str) (cs : Nat)
    (mk : Split → Nat → Str → ChunkRec) (ss : List Split) (i : Nat) :
    (Chunker.loop sizeSplit cs mk ss i).length =
      (ss.map (fun s => (Chunker.subTexts sizeSplit cs s.pageContent).length)).sum := by
  induction ss generalizing i with
  | nil => rfl
  | cons s ss ih => simp [Chunker.loop, emitSubs_length, ih]

theorem loop_map_index (sizeSplit : Str → List Str) (cs : Nat)
    (mk : Split → Nat → Str → ChunkRec)
    (h : ∀ s i t, (mk s i t).chunk_index = i) (ss : List Split) (i : Nat) :
    (Chunker.loop sizeSplit cs mk ss i).map ChunkRec.chunk_index =
      List.range' i (Chunker.loop sizeSplit cs mk ss i).length := by
  induction ss generalizing i with
  | nil => rfl
  | cons s ss ih =>
    simp only [Chunker.loop, List.map_append, List.length_append]
    rw [emitSubs_map_index (mk s) (h s), ih, emitSubs_length]
    rw [List.range'_append_1]
    rw [Nat.add_comm (Chunker.loop sizeSplit cs mk ss
      (i + (Chunker.subTexts sizeSplit cs s.pageContent).length)).length]

theorem loop_mem (sizeSplit : Str → List Str) (cs : Nat)
    (mk : Split → Nat → Str → ChunkRec) (ss : List Split) (i : Nat)
    (c : ChunkRec) (hc : c ∈ Chunker.loop sizeSplit cs mk ss i) :
    ∃ s ∈ ss, ∃ j t, t ∈ Chunker.subTexts sizeSplit cs s.pageContent ∧ c = mk s j t := by
  induction ss generalizing i with
  | nil => simp [Chunker.loop] at hc
  | cons s ss ih =>
    rcases List.mem_append.mp hc with h | h
    · rcases emitSubs_mem (mk s) _ i c h with ⟨j, t, ht, he⟩
      exact ⟨s, by simp, j, t, ht, he⟩
    · rcases ih _ h with ⟨s2, hs2, j, t, ht, he⟩
      exact ⟨s2, by simp [hs2], j, t, ht, he⟩

theorem insertLoop_ok (w : PGVectorWriter) (visible : List IngestedRow)
    (cs : List EmbeddedChunk) (pending q : List IngestedRow)
    (h : insertLoop w visible cs pending = .ok q) :
    q = pending ++ cs.map w.rowOf := by
  induction cs generalizing pending with
  | nil =>
    simp [insertLoop] at h
    simp [h]
  | cons c cs ih =>
    unfold insertLoop at h
    rcases hr : insertRow visible pending (w.rowOf c) with e | p2
    · rw [hr] at h
      simp at h
    · rw [hr] at h
      have hp2 : p2 = pending ++ [w.rowOf c] := by
        unfold insertRow at hr
        split at hr
        · simp at hr
        · injection hr with hr2
          exact hr2.symm
      rw [ih p2 h, hp2]
      simp

/-- C8: the snapshot from `__getstate__` carries every configuration field
of the writer unchanged and is independent of the live connection handle;
restoring via `__setstate__` yields a writer with equal configuration and
no connection, and `_get_connection` then creates a connection lazily on
first use. -/
theorem c8_writer_state_roundtrip (w : PGVectorWriter) (alive : Nat → Bool) (fresh : Nat) :
    (PGVectorWriter.getstate w).connection_string = w.connection_string ∧
    (PGVectorWriter.getstate w).table_name = w.table_name ∧
    (PGVectorWriter.getstate w).data_version = w.data_version ∧
    (PGVectorWriter.getstate w).embedding_model = w.embedding_model ∧
    (PGVectorWriter.getstate w).docker_image = w.docker_image ∧
    (PGVectorWriter.getstate w).argo_workflow_uid = w.argo_workflow_uid ∧
    (∀ c, PGVectorWriter.getstate { w with conn := c } = PGVectorWriter.getstate w) ∧
    PGVectorWriter.setstate (PGVectorWriter.getstate w) = { w with conn := none } ∧
    (PGVectorWriter.getConnection alive
      (PGVectorWriter.setstate (PGVectorWriter.getstate w)) fresh).2 = fresh :=
  ⟨rfl, rfl, rfl, rfl, rfl, rfl, fun _ => rfl, rfl, rfl⟩

/-- C9: a document with empty text yields zero chunks, and no error (the
chunking function is total). -/
theorem c9_empty_text_zero_chunks (chunkSize chunkOverlap : Nat) (p docId : Str)
    (gen : Nat → Str) :
    Chunker.call chunkSize chunkOverlap docId gen ⟨p, []⟩ = [] := rfl

/-- C2 counterexample: the table initialization that the pipeline actually
runs (`initialize_table` in `process.py`) deletes a pre-existing row
unconditionally; it takes no policy configuration (its only inputs are the
connection string and table name), so no run can be configured to the
claimed non-destructive policy. -/
theorem c2_counterexample :
    initialize_table (some ⟨[preexistingRow], true, true⟩) = some ⟨[], true, true⟩ ∧
    preexistingRow ∉ (⟨[], true, true⟩ : TableState).rows :=
  ⟨rfl, by simp⟩

/-- C2 amended: the source holds two `initialize_table` revisions, not one
function with a configurable policy: the `process copy.py` revision
(create if not exists) preserves the existing table and all its rows,
while the active `process.py` revision (drop and recreate) always leaves
an empty table; which policy applies is fixed by which script revision
runs, not by configuration. -/
theorem c2_two_init_revisions (s : TableState) :
    initialize_table_copy (some s) = some { s with hasEmbeddingIndex := true } ∧
    (initialize_table_copy (some s)).map TableState.rows = some s.rows ∧
    initialize_table (some s) = some ⟨[], true, true⟩ :=
  ⟨rfl, by simp [initialize_table_copy], rfl⟩

/-- C6: every batch is written inside a single transaction with exactly one
data-visible commit: on success all rows of the batch and nothing else are
appended to the visible table, and if any insert fails the transaction is
rolled back, leaving the table exactly as before (zero rows of the batch
visible, zero commits). -/
theorem c6_transactional_batching (w : PGVectorWriter) (batch : List EmbeddedChunk)
    (db : TableState) :
    ((PGVectorWriter.call w batch db).error = none →
      (PGVectorWriter.call w batch db).db.rows = db.rows ++ batch.map w.rowOf ∧
      (PGVectorWriter.call w batch db).commits = 1) ∧
    (∀ e, (PGVectorWriter.call w batch db).error = some e →
      (PGVectorWriter.call w batch db).db = db ∧
      (PGVectorWriter.call w batch db).commits = 0) := by
  unfold PGVectorWriter.call
  rcases hr : insertLoop w db.rows batch [] with e | pending
  · refine ⟨fun h => absurd h (by simp), fun e2 h => ⟨rfl, rfl⟩⟩
  · have := insertLoop_ok w db.rows batch [] pending hr
    simp at this
    subst this
    exact ⟨fun _ => ⟨rfl, rfl⟩, fun e2 h => absurd h (by simp)⟩

/-- C6 witness: at concrete inputs, a clean batch of two distinct chunks
commits exactly its two rows, and a batch holding a duplicated chunk id is
rolled back leaving the table unchanged. -/
theorem c6_transactional_batching_witness :
    (PGVectorWriter.call writer0 [chunk0, chunk1] emptyTable).db.rows =
      emptyTable.rows ++ [chunk0, chunk1].map writer0.rowOf ∧
    (PGVectorWriter.call writer0 [chunk0, chunk1] emptyTable).commits = 1 ∧
    (PGVectorWriter.call writer0 [chunk0, chunk0] emptyTable).db = emptyTable ∧
    (PGVectorWriter.call writer0 [chunk0, chunk0] emptyTable).commits = 0 := by
  have h1 := (c6_transactional_batching writer0 [chunk0, chunk1] emptyTable).1 (by decide)
  have h2 := (c6_transactional_batching writer0 [chunk0, chunk0] emptyTable).2
    .uniqueViolation (by decide)
  exact ⟨h1.1, h1.2, h2.1, h2.2⟩

/-- C1 counterexample: writing a batch and then re-writing a batch with the
same `chunk_id` raises a unique-key violation (the writer issues a plain
INSERT against the primary-key column, not an upsert), contradicting the
claim that the second write raises no error. -/
theorem c1_counterexample :
    (PGVectorWriter.call writer0 [chunk0]
      (PGVectorWriter.call writer0 [chunk0] emptyTable).db).error =
      some .uniqueViolation := by decide

/-- A single-chunk batch write either hits a duplicate id and rolls back,
or appends its one row and commits. -/
theorem call_singleton (w : PGVectorWriter) (c : EmbeddedChunk) (db : TableState) :
    PGVectorWriter.call w [c] db =
      if db.rows.any (fun q => q.id = (w.rowOf c).id) then
        ⟨db, some .uniqueViolation, 0⟩
      else
        ⟨{ db with rows := db.rows ++ [w.rowOf c] }, none, 1⟩ := by
  by_cases h : db.rows.any (fun q => q.id = (w.rowOf c).id)
  · simp [PGVectorWriter.call, insertLoop, insertRow, h]
  · simp [PGVectorWriter.call, insertLoop, insertRow, h]

/-- C1 amended: writing a batch and then re-writing a batch with the same
`chunk_id` and identical content leaves exactly one row with that id in
the destination table (the original row: the second batch is rolled back,
so re-insertion creates no duplicate row) but raises a unique-key
violation error, because the writer issues plain INSERTs keyed on the
primary-key id rather than an upsert. -/
theorem c1_reinsert_one_row_but_error (w : PGVectorWriter) (c : EmbeddedChunk)
    (db : TableState) (hfresh : ∀ r ∈ db.rows, r.id ≠ c.chunk_id) :
    (PGVectorWriter.call w [c] db).error = none ∧
    (PGVectorWriter.call w [c]
      (PGVectorWriter.call w [c] db).db).error = some .uniqueViolation ∧
    ((PGVectorWriter.call w [c]
        (PGVectorWriter.call w [c] db).db).db.rows.filter
      (fun r => r.id = c.chunk_id)).length = 1 := by
  have hid : (w.rowOf c).id = c.chunk_id := rfl
  have hcond : db.rows.any (fun q => q.id = (w.rowOf c).id) = false := by
    simp only [List.any_eq_false, decide_eq_true_eq, hid]
    exact hfresh
  have h1 : PGVectorWriter.call w [c] db =
      ⟨{ db with rows := db.rows ++ [w.rowOf c] }, none, 1⟩ := by
    rw [call_singleton, hcond]
    simp
  have hcond2 : ({ db with rows := db.rows ++ [w.rowOf c] } : TableState).rows.any
      (fun q => q.id = (w.rowOf c).id) = true := by
    simp
  have h2 : PGVectorWriter.call w [c] { db with rows := db.rows ++ [w.rowOf c] } =
      ⟨{ db with rows := db.rows ++ [w.rowOf c] }, some .uniqueViolation, 0⟩ := by
    rw [call_singleton, hcond2]
    simp
  rw [h1, h2]
  refine ⟨rfl, rfl, ?_⟩
  simp only [List.filter_append]
  rw [List.filter_eq_nil_iff.mpr (by intro r hr; simpa using hfresh r hr)]
  simp [hid]

/-- C1 amended witness: the concrete writer and chunk realize the amended
claim on the initially empty table. -/
theorem c1_reinsert_one_row_but_error_witness :
    (PGVectorWriter.call writer0 [chunk0] emptyTable).error = none ∧
    (PGVectorWriter.call writer0 [chunk0]
      (PGVectorWriter.call writer0 [chunk0] emptyTable).db).error =
      some .uniqueViolation ∧
    ((PGVectorWriter.call writer0 [chunk0]
        (PGVectorWriter.call writer0 [chunk0] emptyTable).db).db.rows.filter
      (fun r => r.id = chunk0.chunk_id)).length = 1 :=
  c1_reinsert_one_row_but_error writer0 chunk0 emptyTable (by decide)

/-- C3 counterexample: a run whose embedding stage receives one batch
holding a chunk whose encoding fails aborts with the encoding error: the
`Embedder.__call__` body has no exception handling, so there is no retry
of the batch chunk by chunk, no dropping of the failing chunk, and no
dropped-chunk count; the single failure ends the run. -/
theorem c3_counterexample :
    embedStage encFail [badBatch] = .error .encodeFailure := rfl

/-- C3 amended: if encoding a batch fails, `Embedder.__call__` propagates
the error unchanged (there is no per-chunk retry and no dropping), and the
embedding stage of the run fails with that error regardless of the batches
still pending, reporting no dropped-chunk count. -/
theorem c3_encode_failure_aborts (encode : List Str → Except EncodeError (List (List Int)))
    (b : EmbedderInBatch) (rest : List EmbedderInBatch) (e : EncodeError)
    (h : encode b.text = .error e) :
    Embedder.call encode b = .error e ∧
    embedStage encode (b :: rest) = .error e := by
  have hc : Embedder.call encode b = .error e := by
    unfold Embedder.call
    rw [h]
  refine ⟨hc, ?_⟩
  unfold embedStage
  rw [List.mapM_cons, hc]
  rfl

/-- C3 amended witness: the concrete failing encode aborts the one-batch
stage. -/
theorem c3_encode_failure_aborts_witness :
    Embedder.call encFail badBatch = .error .encodeFailure ∧
    embedStage encFail [badBatch, badBatch] = .error .encodeFailure :=
  c3_encode_failure_aborts encFail badBatch [badBatch] .encodeFailure rfl

/-- C7: for every document and any splitters whatsoever, the `chunk_index`
values of the emitted chunks are exactly 0, 1, ..., N-1 in emission order,
with no gaps and no repeats, across all sections. -/
theorem c7_chunk_index_contiguous (headerSplit : Str → List Split)
    (sizeSplit : Str → List Str) (chunkSize : Nat) (docId : Str)
    (gen : Nat → Str) (row : DocRow) :
    (Chunker.callWith headerSplit sizeSplit chunkSize docId gen row).map
        ChunkRec.chunk_index =
      List.range
        (Chunker.callWith headerSplit sizeSplit chunkSize docId gen row).length := by
  unfold Chunker.callWith
  rw [List.range_eq_range']
  exact loop_map_index _ _ _ (fun s i t => rfl) (headerSplit row.text) 0

/-- C5 counterexample: on a document whose level-2 heading carries an
anchor tag, the emitted chunk stores `section_h2` with the anchor markup
intact (only `section_h1` passes through `_clean_header`), contradicting
the claim that heading metadata is cleaned at every heading level. -/
theorem c5_counterexample :
    (Chunker.call 800 100 [] (fun _ => []) row5).map ChunkRec.section_h2 =
      [[], "Setup <a id=\"x\"></a>".data] ∧
    cleanHeader "Setup <a id=\"x\"></a>".data = "Setup".data ∧
    ("Setup <a id=\"x\"></a>".data : Str) ≠ "Setup".data := by
  refine ⟨by decide, by decide, by decide⟩

/-- C5 amended: every emitted chunk takes its heading metadata from the
section that produced it, with only the level-1 heading cleaned of anchor
markup by `_clean_header`; the level-2 and level-3 headings are stored
raw, as retrieved from the section metadata. -/
theorem c5_only_h1_cleaned (headerSplit : Str → List Split)
    (sizeSplit : Str → List Str) (chunkSize : Nat) (docId : Str)
    (gen : Nat → Str) (row : DocRow) (c : ChunkRec)
    (hc : c ∈ Chunker.callWith headerSplit sizeSplit chunkSize docId gen row) :
    ∃ s ∈ headerSplit row.text,
      c.section_h1 = cleanHeader (s.h1.getD []) ∧
      c.section_h2 = s.h2.getD [] ∧
      c.section_h3 = s.h3.getD [] := by
  rcases loop_mem _ _ _ _ _ c hc with ⟨s, hs, j, t, ht, he⟩
  subst he
  exact ⟨s, hs, rfl, rfl, rfl⟩

/-- C5 amended witness: the chunk emitted for the anchored Setup section of
the concrete document carries the cleaned h1 and the raw h2 of its
section. -/
theorem c5_only_h1_cleaned_witness :
    ∃ s ∈ markdownHeaderSplit row5.text,
      (⟨"## Setup <a id=\"x\"></a>\nBody here".data, "acme".data,
          "acme_README.md".data, 1, [], [], "Title".data,
          "Setup <a id=\"x\"></a>".data, []⟩ : ChunkRec).section_h1 =
        cleanHeader (s.h1.getD []) ∧
      (⟨"## Setup <a id=\"x\"></a>\nBody here".data, "acme".data,
          "acme_README.md".data, 1, [], [], "Title".data,
          "Setup <a id=\"x\"></a>".data, []⟩ : ChunkRec).section_h2 = s.h2.getD [] ∧
      (⟨"## Setup <a id=\"x\"></a>\nBody here".data, "acme".data,
          "acme_README.md".data, 1, [], [], "Title".data,
          "Setup <a id=\"x\"></a>".data, []⟩ : ChunkRec).section_h3 = s.h3.getD [] :=
  c5_only_h1_cleaned markdownHeaderSplit (slidingWindowSplit 800 100) 800 []
    (fun _ => []) row5 _ (by decide)

/-- C10 counterexample: on the path a_README_README.md the code derives
source_repo a (Python `str.replace` removes every occurrence of
`_README`), while removing only a trailing `_README` suffix from the stem,
as the claim words it, gives a_README. -/
theorem c10_counterexample :
    (Chunker.call 800 100 [] (fun _ => []) row10).map ChunkRec.source_repo =
      ["a".data] ∧
    stemWithSuffixREADMERemoved "a_README_README.md".data = "a_README".data ∧
    ("a".data : Str) ≠ "a_README".data := by
  refine ⟨by decide, by decide, by decide⟩

/-- C10 amended: every chunk emitted for an input row carries source_file
equal to the final path component (`path.name`) and source_repo equal to
the stem with every occurrence of `_README` removed
(`path.stem.replace("_README", "")`); the derivation is a pure function of
the path. -/
theorem c10_provenance_fields (headerSplit : Str → List Split)
    (sizeSplit : Str → List Str) (chunkSize : Nat) (docId : Str)
    (gen : Nat → Str) (row : DocRow) (c : ChunkRec)
    (hc : c ∈ Chunker.callWith headerSplit sizeSplit chunkSize docId gen row) :
    c.source_file = pathName row.path ∧
    c.source_repo = pyReplace "_README".data [] (pathStem row.path) := by
  rcases loop_mem _ _ _ _ _ c hc with ⟨s, hs, j, t, ht, he⟩
  subst he
  exact ⟨rfl, rfl⟩

/-- C10 amended witness: the chunk of the concrete document
acme_README.md carries source_file acme_README.md and source_repo acme. -/
theorem c10_provenance_fields_witness :
    (⟨"hello".data, "acme".data, "acme_README.md".data, 0, [], [], [], [],
        []⟩ : ChunkRec).source_file = pathName "acme_README.md".data ∧
    (⟨"hello".data, "acme".data, "acme_README.md".data, 0, [], [], [], [],
        []⟩ : ChunkRec).source_repo =
      pyReplace "_README".data [] (pathStem "acme_README.md".data) :=
  c10_provenance_fields markdownHeaderSplit (slidingWindowSplit 800 100) 800 []
    (fun _ => []) ⟨"acme_README.md".data, "hello".data⟩ _ (by decide)

/-- C4: chunking a plain-text document with no markdown heading lines (and
at least one non-empty line) under `chunk_overlap < chunk_size` yields one
chunk when the length is at most `chunk_size`, and exactly
the ceiling of (L - O) / (S - O) chunks when L exceeds S; every chunk text
is at most `chunk_size` characters (the final window is truncated, never
padded). -/
theorem c4_plain_text_chunk_count (S O : Nat) (p docId : Str) (gen : Nat → Str)
    (text : Str) (hO : O < S)
    (hnh : ∀ l ∈ splitLinesL text, headerOf l = none)
    (hnb : ∃ l ∈ splitLinesL text, l ≠ []) :
    (text.length ≤ S → (Chunker.call S O docId gen ⟨p, text⟩).length = 1) ∧
    (S < text.length → (Chunker.call S O docId gen ⟨p, text⟩).length =
      (text.length - O + (S - O) - 1) / (S - O)) ∧
    (∀ c ∈ Chunker.call S O docId gen ⟨p, text⟩, c.text.length ≤ S) := by
  have hms := markdownHeaderSplit_no_heading text hnh hnb
  have hcall : Chunker.call S O docId gen ⟨p, text⟩ =
      Chunker.emitSubs
        (Chunker.mkChunk (pyReplace "_README".data [] (pathStem p)) (pathName p)
          docId gen ⟨text, none, none, none⟩)
        (Chunker.subTexts (slidingWindowSplit S O) S text) 0 := by
    unfold Chunker.call Chunker.callWith
    rw [hms]
    simp [Chunker.loop]
  refine ⟨?_, ?_, ?_⟩
  · intro hle
    rw [hcall, emitSubs_length]
    simp [Chunker.subTexts, Nat.not_lt.mpr hle]
  · intro hgt
    rw [hcall, emitSubs_length]
    unfold Chunker.subTexts
    rw [if_pos hgt, slidingWindowSplit_length S O hO text, if_neg (Nat.not_le.mpr hgt)]
  · intro c hc
    rw [hcall] at hc
    rcases emitSubs_mem _ _ _ c hc with ⟨j, t, ht, he⟩
    subst he
    simp only [Chunker.mkChunk]
    unfold Chunker.subTexts at ht
    by_cases hgt : S < text.length
    · rw [if_pos hgt] at ht
      exact slidingWindowSplit_mem_length S O hO text t ht
    · rw [if_neg hgt] at ht
      simp at ht
      subst ht
      exact Nat.le_of_not_lt hgt

/-- C4 witness: a 12-character plain text with chunk size 5 and overlap 2
yields ceil((12-2)/(5-2)) = 4 chunks, each at most 5 characters. -/
theorem c4_plain_text_chunk_count_witness :
    (5 < ("abcdefghijkl".data : Str).length ∧
      (Chunker.call 5 2 [] (fun _ => []) ⟨"a.md".data, "abcdefghijkl".data⟩).length =
        (("abcdefghijkl".data : Str).length - 2 + (5 - 2) - 1) / (5 - 2)) ∧
    (Chunker.call 5 2 [] (fun _ => []) ⟨"a.md".data, "abcdefghijkl".data⟩).length = 4 :=
  ⟨⟨by decide,
    (c4_plain_text_chunk_count 5 2 "a.md".data [] (fun _ => []) "abcdefghijkl".data
      (by decide) (by decide) (by decide)).2.1 (by decide)⟩,
    by decide⟩
